import Mathlib

/-!
# Verification of the caddy_ratelimit dynamic bandwidth limiter

Shallow embedding of the Go sources of `stupidloud/caddy_ratelimit`:

* `token_bucket.go` — the `TokenBucket` structure, `NewTokenBucket`, `Allow`;
* the storage backends (`Storage` interface, `MemoryStorage`, `RedisStorage`);
* the `RateLimitWriter` chunked paced writer;
* the `RateLimit` handler (`rate_limit_dynamic`), its `captureResponseWriter`
  and `getOrCreateBucket`.

Modelling conventions:

* Go `float64` values (token balances, burst multiplier, elapsed seconds) are
  modelled as exact rationals `ℚ`; Go `int64` as `Int`.
* `time.Time` values are rational timestamps (seconds); `now` is passed
  explicitly to every operation that reads the clock.
* Locks, logging and sleeping are invisible to the modelled state and are
  dropped; the periodic storage sync in `Allow` mutates only
  `lastStorageUpdate`, which no claim mentions, and is likewise dropped.
* Network I/O of the Redis backend is abstracted by an explicit oracle for the
  remote reply; the unhealthy fast paths are translated verbatim.
-/

namespace CaddyRatelimit

/-! ## Token bucket (`token_bucket.go`) -/

/-- The value-relevant fields of the Go `TokenBucket` struct.  The mutex,
logger, storage handle, userID and `lastStorageUpdate` fields do not affect
the rate-limiting state and are omitted. -/
structure TokenBucket where
  rate : Int
  tokens : ℚ
  lastAccess : ℚ
  burstMultiplier : ℚ
  deriving Repr, DecidableEq

/-- `TokenBucket.Allow` (token_bucket.go lines 60-122).  Returns the updated
bucket together with the admission decision.  `now` is the wall clock read at
the top of the call. -/
def TokenBucket.Allow (tb : TokenBucket) (count : Int) (now : ℚ) : TokenBucket × Bool :=
  let elapsed := now - tb.lastAccess
  let newTokens := (tb.rate : ℚ) * elapsed
  let tokens1 := tb.tokens + newTokens
  let maxTokens := (tb.rate : ℚ) * tb.burstMultiplier
  let tokens2 := if tokens1 > maxTokens then maxTokens else tokens1
  if tokens2 < (count : ℚ) then
    ({ tb with lastAccess := now, tokens := tokens2 }, false)
  else
    ({ tb with lastAccess := now, tokens := tokens2 - (count : ℚ) }, true)

/-! ## Storage backends (`Storage` interface, memory and Redis) -/

/-- A storage `Get` result: `(tokens, lastAccess, err)`, exactly the Go
triple; `err = none` models a nil error. -/
abbrev GetResult := ℚ × ℚ × Option String

/-- `MemoryStorage.Get` over the in-process map, modelled as an association
list.  A missing key reports an error (Go: `fmt.Errorf("用户 %s 不存在")`)
with zero values. -/
def MemoryStorage.GetFn (data : List (String × ℚ × ℚ)) : String → GetResult :=
  fun userID =>
    match data.lookup userID with
    | some s => (s.1, s.2, none)
    | none => (0, 0, some "user does not exist")

/-- The exact value of Go `math.MaxFloat64` = (2^53 - 1) * 2^971. -/
def maxFloat64 : ℚ := (2 ^ 53 - 1) * 2 ^ 971

/-- The reply the Redis server produces for the atomic HGET script of
`RedisStorage.Get`, abstracting the network exchange:
`missing` = script returned nil (key absent), `found` = both hash fields
present and parseable, `failure` = every retry failed (or the reply failed
to parse), which the Go code converts to `fallbackValues()`. -/
inductive RedisReply where
  | missing
  | found (tokens lastAccess : ℚ)
  | failure
  deriving Repr, DecidableEq

/-- `RedisStorage.Get` (storage part_001 lines 210-279).  The unhealthy fast
path and the fallback path both return `fallbackValues()` =
`(math.MaxFloat64, time.Now(), nil)`. -/
def RedisStorage.Get (healthyFlag : Bool) (now : ℚ) (remote : String → RedisReply)
    (userID : String) : GetResult :=
  if !healthyFlag then
    (maxFloat64, now, none)
  else
    match remote userID with
    | .missing => (0, 0, some "user does not exist")
    | .found t la => (t, la, none)
    | .failure => (maxFloat64, now, none)

/-- `RedisStorage.Set` (part_001 lines 282-318).  The remote store is an
association list of `(tokens, lastAccess)` keyed by userID; the healthy
path's Lua script plus its 3-attempt retry loop is collapsed into the single
outcome `remoteOk` (the TTL arming is invisible to the modelled state).  The
unhealthy fast path is verbatim: return nil without touching the store. -/
def RedisStorage.Set (healthyFlag : Bool) (store : List (String × ℚ × ℚ))
    (userID : String) (tokens lastAccess : ℚ) (remoteOk : Bool) :
    List (String × ℚ × ℚ) × Option String :=
  if !healthyFlag then
    (store, none)
  else if remoteOk then
    ((userID, tokens, lastAccess) :: store.filter (fun p => p.1 ≠ userID), none)
  else
    (store, some "redis set failed")

/-- `RedisStorage.Delete` (part_001 lines 321-349), same conventions as
`RedisStorage.Set`. -/
def RedisStorage.Delete (healthyFlag : Bool) (store : List (String × ℚ × ℚ))
    (userID : String) (remoteOk : Bool) :
    List (String × ℚ × ℚ) × Option String :=
  if !healthyFlag then
    (store, none)
  else if remoteOk then
    (store.filter (fun p => p.1 ≠ userID), none)
  else
    (store, some "redis delete failed")

/-- `NewTokenBucket` (token_bucket.go lines 27-57): tokens start at 0 and
are overridden by the stored state exactly when `storage.Get` returns a nil
error.  `storageGet = none` models a nil `storage` handle. -/
def NewTokenBucket (rate : Int) (storageGet : Option (String → GetResult))
    (userID : String) (now : ℚ) (burstMultiplier : ℚ) : TokenBucket :=
  let bucket : TokenBucket :=
    { rate := rate, tokens := 0, lastAccess := now, burstMultiplier := burstMultiplier }
  match storageGet with
  | none => bucket
  | some get =>
    let r := get userID
    if r.2.2 = none then
      { bucket with tokens := r.1, lastAccess := r.2.1 }
    else
      bucket

/-! ## The `rate_limit_dynamic` handler (part_004) -/

/-- Go `strconv.ParseInt(s, 10, 64)`: optional single sign, a nonempty run
of decimal digits, int64 range check.  `none` models a non-nil error (both
syntax and range errors). -/
def parseInt64 (s : String) : Option Int :=
  let signSplit : Bool × List Char :=
    match s.data with
    | '+' :: rest => (false, rest)
    | '-' :: rest => (true, rest)
    | l => (false, l)
  let neg := signSplit.1
  let ds := signSplit.2
  if ds ≠ [] ∧ ds.all Char.isDigit then
    let n : Nat := ds.foldl (fun acc c => acc * 10 + (c.toNat - 48)) 0
    if neg then
      if n ≤ 2 ^ 63 then some (-(n : Int)) else none
    else
      if n ≤ 2 ^ 63 - 1 then some (n : Int) else none
  else
    none

/-- An `http.Header` map.  Go canonicalizes header keys on both `Set` and
`Get`; the model uses already-canonical keys throughout, so plain string
equality is faithful. -/
abbrev HeaderMap := List (String × String)

/-- `http.Header.Get`: empty string when the key is absent. -/
def HeaderMap.get (h : HeaderMap) (k : String) : String :=
  match List.lookup k h with
  | some v => v
  | none => ""

/-- The real (underlying) `http.ResponseWriter` plus the state of the client
connection: its header map, the status actually sent on the wire (Go sends an
implicit `WriteHeader(200)` on the first body write if none was sent), and
the body bytes delivered. -/
structure Sink where
  headers : HeaderMap
  status : Option Int
  body : List Nat
  deriving Repr, DecidableEq

/-- Explicit `WriteHeader` on the real sink; net/http ignores a second
status write. -/
def Sink.writeHeader (s : Sink) (code : Int) : Sink :=
  if s.status = none then { s with status := some code } else s

/-- Body write on the real sink, with the implicit `WriteHeader(200)`. -/
def Sink.write (s : Sink) (b : List Nat) : Sink :=
  let s := if s.status = none then { s with status := some 200 } else s
  { s with body := s.body ++ b }

/-- `captureResponseWriter` (part_004 lines 307-334): buffers the status
code and a private header map; body writes pass straight through to the
wrapped writer. -/
structure CaptureRW where
  statusCode : Int
  header : HeaderMap
  wroteHeader : Bool
  deriving Repr, DecidableEq

/-- `captureResponseWriter.WriteHeader`: record the first status code only. -/
def CaptureRW.writeHeaderC (crw : CaptureRW) (statusCode : Int) : CaptureRW :=
  if !crw.wroteHeader then
    { crw with statusCode := statusCode, wroteHeader := true }
  else
    crw

/-- `captureResponseWriter.Write`: set the implicit 200 on the capture state
if needed, then forward the bytes to the wrapped (real) writer. -/
def CaptureRW.writeC (crw : CaptureRW) (sink : Sink) (b : List Nat) : CaptureRW × Sink :=
  let crw := if !crw.wroteHeader then crw.writeHeaderC 200 else crw
  (crw, sink.write b)

/-- The terminal response the wrapped chain produces on the first pass:
the headers it sets via `Header()`, the status it writes, and its body. -/
structure Response where
  status : Int
  headers : HeaderMap
  body : List Nat
  deriving Repr, DecidableEq

/-- Running the wrapped chain (`next.ServeHTTP(crw, r)`) against the capture
writer: the chain populates `crw.Header()`, writes its status through
`crw.WriteHeader`, and writes its body (if any) through `crw.Write`, which
forwards the bytes to the real sink. -/
def dispatchToCapture (resp : Response) (crw : CaptureRW) (sink : Sink) : CaptureRW × Sink :=
  let crw := { crw with header := resp.headers }
  let crw := crw.writeHeaderC resp.status
  if resp.body.isEmpty then (crw, sink) else crw.writeC sink resp.body

/-- The configuration fields of the `RateLimit` handler after `Provision`
applied its defaults. -/
structure Config where
  headerUserID : String := "X-Accel-User-ID"
  headerRateLimit : String := "X-Accel-RateLimit"
  burstMultiplier : ℚ := 1
  deriving Repr, DecidableEq

/-- `RateLimit.getOrCreateBucket` (part_004 lines 234-282) over the limiter
registry, modelled as an association list.  Single-threaded, so the
double-checked re-lookup collapses into one lookup.  Returns the updated
registry and the bucket handed back to the caller. -/
def getOrCreateBucket (limiters : List (String × TokenBucket))
    (storageGet : Option (String → GetResult)) (burstMultiplier : ℚ)
    (userID : String) (rateLimit : Int) (now : ℚ) :
    List (String × TokenBucket) × TokenBucket :=
  match List.lookup userID limiters with
  | some bucket =>
    if bucket.rate ≠ rateLimit then
      let bucket := { bucket with rate := rateLimit }
      ((userID, bucket) :: limiters.filter (fun p => p.1 ≠ userID), bucket)
    else
      (limiters, bucket)
  | none =>
    let bucket := NewTokenBucket rateLimit storageGet userID now burstMultiplier
    ((userID, bucket) :: limiters, bucket)

/-- What `RateLimit.ServeHTTP` (part_004 lines 148-231) does after the first
dispatch returned without error.  The result is the state of the real sink,
the second dispatch if one happens — `some (redirectPath, attachedBucket)`
models `rl.next.ServeHTTP(w, newReq)` on the derived request whose context
carries `attachedBucket` (`none` inside means no bucket was attached) — and
the updated limiter registry. -/
def RateLimit.serveHTTP (cfg : Config) (limiters : List (String × TokenBucket))
    (storageGet : Option (String → GetResult)) (resp : Response) (sink : Sink)
    (now : ℚ) :
    Sink × Option (String × Option TokenBucket) × List (String × TokenBucket) :=
  let crw : CaptureRW := { statusCode := 200, header := [], wroteHeader := false }
  let s := dispatchToCapture resp crw sink
  let crw := s.1
  let sink := s.2
  let accelRedirect := crw.header.get "X-Accel-Redirect"
  if accelRedirect = "" then
    -- no X-Accel-Redirect: return nil.  Note: the captured status code and
    -- header map are NOT replayed onto the real sink here.
    (sink, none, limiters)
  else
    let userID := crw.header.get cfg.headerUserID
    let rateLimitStr := crw.header.get cfg.headerRateLimit
    if userID ≠ "" ∧ rateLimitStr ≠ "" then
      match parseInt64 rateLimitStr with
      | none =>
        -- parse failure: log a warning, redirect without a bucket
        (sink, some (accelRedirect, none), limiters)
      | some rateLimit =>
        let r := getOrCreateBucket limiters storageGet cfg.burstMultiplier userID rateLimit now
        (sink, some (accelRedirect, some r.2), r.1)
    else
      (sink, some (accelRedirect, none), limiters)

/-! ## The paced writer `RateLimitWriter` (part_003) -/

/-- The behaviour of the sink wrapped by a `RateLimitWriter` on one `Write`
call: `ok` = accept the whole chunk and return `(len(chunk), nil)` (the
`http.ResponseWriter` contract: a nil error means a complete write);
`fail n e` = accept the first `n` bytes and return the error `e`. -/
inductive WriteOutcome where
  | ok
  | fail (n : Nat) (e : String)
  deriving Repr, DecidableEq

/-- The underlying `http.ResponseWriter` wrapped by a `RateLimitWriter`:
a script of outcomes for successive `Write` calls (exhausted script =
everything succeeds), the body bytes it has accepted, the length of each
chunk it was handed, and the status it has sent. -/
structure USink where
  script : List WriteOutcome
  received : List Nat
  chunkLog : List Nat
  status : Option Int
  deriving Repr, DecidableEq

/-- One `w.Write(chunk)` call on the underlying sink: returns the new sink
state, the byte count and the error, per the head of the script. -/
def USink.write (s : USink) (chunk : List Nat) : USink × Nat × Option String :=
  match s.script with
  | [] =>
    ({ s with received := s.received ++ chunk, chunkLog := s.chunkLog ++ [chunk.length] },
      chunk.length, none)
  | .ok :: rest =>
    ({ s with script := rest, received := s.received ++ chunk, chunkLog := s.chunkLog ++ [chunk.length] },
      chunk.length, none)
  | .fail n e :: rest =>
    ({ s with script := rest, received := s.received ++ chunk.take n, chunkLog := s.chunkLog ++ [chunk.length] },
      min n chunk.length, some e)

/-- `w.WriteHeader(code)` forwarded to the underlying sink (net/http ignores
a duplicate). -/
def USink.writeHeader (s : USink) (code : Int) : USink :=
  if s.status = none then { s with status := some code } else s

/-- The chunk-size selection of `RateLimitWriter.Write` (part_003 lines
54-65): 256KiB for rates in [10MiB/s, 50MiB/s), 512KiB for rates ≥ 50MiB/s,
64KiB otherwise. -/
def chunkSizeFor (rate : Int) : Nat :=
  if 10 * 1024 * 1024 ≤ rate ∧ rate < 50 * 1024 * 1024 then 256 * 1024
  else if 50 * 1024 * 1024 ≤ rate then 512 * 1024
  else 64 * 1024

/-- The effective divisor used by the wait-duration computation of the
admission loop (part_003 lines 89-92): a non-positive bucket rate is
replaced by 1024 bytes/sec. -/
def effectiveRate (rate : Int) : Int :=
  if rate ≤ 0 then 1024 else rate

/-- The wait-duration computation of the admission loop in
`RateLimitWriter.Write` (part_003 lines 86-114), in nanoseconds.
`rate` is the bucket's current rate, `chunk` the chunk size being requested,
`tokens` the bucket's current balance.  Go's `time.Duration(float64)`
conversion truncates toward zero. -/
def waitDurationNs (rate : Int) (chunk : Nat) (tokens : ℚ) : Int :=
  let currentRate : Int := effectiveRate rate
  let waitTokens : ℚ := (chunk : ℚ) - tokens
  let w : ℚ := waitTokens / (currentRate : ℚ) * 1000000000
  let waitTime : Int := if 0 ≤ w then ⌊w⌋ else ⌈w⌉
  if waitTime < 1000000 then 1000000 else waitTime

/-- The chunk loop of `RateLimitWriter.Write` (part_003 lines 75-142).
`adm` abstracts the blocking `for !rlw.bucket.Allow(...) { sleep }` loop,
which only sleeps and mutates the bucket: it yields the bucket state once
admission for `currentChunkSize` tokens finally succeeded.  Each iteration
takes `currentChunkSize = min cs remaining.length` bytes (written here as
`hd :: tl.take (cs - 1)`; `cs` is one of 64/256/512 KiB, so `cs ≥ 1`), hands
them to the underlying sink, and on a nil error — a complete write under the
`http.ResponseWriter` contract — continues after them; on an error it
returns the bytes written so far together with that error. -/
def writeChunks (adm : Nat → TokenBucket → TokenBucket) (cs : Nat) :
    USink → TokenBucket → List Nat → Nat → USink × TokenBucket × Nat × Option String
  | snk, bkt, [], written => (snk, bkt, written, none)
  | snk, bkt, hd :: tl, written =>
    let chunk := hd :: tl.take (cs - 1)
    let bkt := adm chunk.length bkt
    let r := snk.write chunk
    match r.2.2 with
    | some e => (r.1, bkt, written + r.2.1, some e)
    | none => writeChunks adm cs r.1 bkt (tl.drop (cs - 1)) (written + r.2.1)
termination_by _ _ l _ => l.length
decreasing_by
  simp only [List.length_drop, List.length_cons]
  omega

/-- The `RateLimitWriter` state: the bucket it is bound to and its
`wroteHeader` flag (part_003 lines 14-19). -/
structure RLWriter where
  bucket : TokenBucket
  wroteHeader : Bool
  deriving Repr, DecidableEq

/-- `RateLimitWriter.Write` (part_003 lines 44-147): idempotent implicit
`WriteHeader(200)`, early return on an empty buffer, rate-dependent chunk
size, then the chunk loop. -/
def RLWriter.Write (adm : Nat → TokenBucket → TokenBucket) (rlw : RLWriter)
    (snk : USink) (b : List Nat) : RLWriter × USink × Nat × Option String :=
  let s : RLWriter × USink :=
    if !rlw.wroteHeader then ({ rlw with wroteHeader := true }, snk.writeHeader 200)
    else (rlw, snk)
  let rlw := s.1
  let snk := s.2
  if b.length = 0 then
    (rlw, snk, 0, none)
  else
    let cs := chunkSizeFor rlw.bucket.rate
    let r := writeChunks adm cs snk rlw.bucket b 0
    ({ rlw with bucket := r.2.1 }, r.1, r.2.2.1, r.2.2.2)

/-! ## Theorems -/

/-- The clamp written `if a > b then b else a` in `Allow` is the minimum. -/
theorem ite_gt_eq_min (a b : ℚ) : (if a > b then b else a) = min a b := by
  split_ifs with h
  · exact (min_eq_right h.le).symm
  · exact (min_eq_left (not_lt.mp h)).symm

/-- C3: every `TokenBucket.Allow count` call sets `lastAccess` to the
current time, adds `rate * elapsed` tokens, clamps the balance to at most
`rate * burstMultiplier`, and then: if the clamped balance is below `count`
it returns false keeping the refilled balance (no rollback of the refill);
otherwise it subtracts `count` and returns true.  `rate` and
`burstMultiplier` are untouched. -/
theorem c3_allow_refill_clamp_consume (tb : TokenBucket) (count : Int) (now : ℚ) :
    (tb.Allow count now).1.lastAccess = now ∧
    (tb.Allow count now).1.rate = tb.rate ∧
    (tb.Allow count now).1.burstMultiplier = tb.burstMultiplier ∧
    (tb.Allow count now).1.tokens =
      (if min (tb.tokens + (tb.rate : ℚ) * (now - tb.lastAccess))
            ((tb.rate : ℚ) * tb.burstMultiplier) < (count : ℚ)
       then min (tb.tokens + (tb.rate : ℚ) * (now - tb.lastAccess))
            ((tb.rate : ℚ) * tb.burstMultiplier)
       else min (tb.tokens + (tb.rate : ℚ) * (now - tb.lastAccess))
            ((tb.rate : ℚ) * tb.burstMultiplier) - (count : ℚ)) ∧
    ((tb.Allow count now).2 = true ↔
      (count : ℚ) ≤ min (tb.tokens + (tb.rate : ℚ) * (now - tb.lastAccess))
        ((tb.rate : ℚ) * tb.burstMultiplier)) := by
  simp only [TokenBucket.Allow, ite_gt_eq_min]
  split_ifs with h
  · refine ⟨rfl, rfl, rfl, rfl, ?_⟩
    simp only [Bool.false_eq_true, false_iff, not_le]
    exact h
  · refine ⟨rfl, rfl, rfl, rfl, ?_⟩
    simp only [true_iff]
    exact not_lt.mp h

/-- C9: the wait-duration computation of the paced writer's admission loop
replaces a non-positive rate by 1024 bytes/sec, so the divisor is always
positive, and the computed sleep duration is at least one millisecond
(10^6 ns). -/
theorem c9_wait_duration_safe (rate : Int) (chunk : Nat) (tokens : ℚ) :
    0 < effectiveRate rate ∧
    (rate ≤ 0 → effectiveRate rate = 1024) ∧
    1000000 ≤ waitDurationNs rate chunk tokens := by
  refine ⟨?_, ?_, ?_⟩
  · unfold effectiveRate
    split_ifs with h
    · norm_num
    · omega
  · intro h
    simp [effectiveRate, h]
  · simp only [waitDurationNs]
    split_ifs <;> omega

/-- Witness for C9 at a concrete negative rate. -/
theorem c9_wait_duration_safe_witness :
    0 < effectiveRate (-5) ∧ effectiveRate (-5) = 1024 ∧
    1000000 ≤ waitDurationNs (-5) 65536 0 := by
  have h := c9_wait_duration_safe (-5) 65536 0
  exact ⟨h.1, h.2.1 (by decide), h.2.2⟩

/-- The capture writer's private header map after the first dispatch is
exactly the header map the wrapped chain populated. -/
theorem dispatchToCapture_header (resp : Response) (crw : CaptureRW) (sink : Sink) :
    (dispatchToCapture resp crw sink).1.header = resp.headers := by
  simp only [dispatchToCapture, CaptureRW.writeC, CaptureRW.writeHeaderC]
  split_ifs <;> rfl

/-- C1 (code bug evidence): on a first-pass response with no
`X-Accel-Redirect` header, the handler performs no second dispatch and the
body bytes do reach the client, but — contrary to the claim, to §4.3 step 3
of the spec, and to the source's own comment 「直接返回原始响应」— the
captured status code (here 404) and the captured headers (here
`Content-Type`) are NOT released to the real sink: the client sees the
implicit status 200 and an empty header map. -/
theorem c1_passthrough_divergence :
    (RateLimit.serveHTTP {} [] none
        { status := 404, headers := [("Content-Type", "text/plain")], body := [104, 105] }
        { headers := [], status := none, body := [] } 0).2.1 = none ∧
    (RateLimit.serveHTTP {} [] none
        { status := 404, headers := [("Content-Type", "text/plain")], body := [104, 105] }
        { headers := [], status := none, body := [] } 0).1 =
      { headers := [], status := some 200, body := [104, 105] } := by
  constructor <;> rfl

/-- C2 counterexample: a captured response carrying `X-Accel-Redirect`, a
user ID, and the rate header value `"0"` — which is not a positive integer —
still gets a `TokenBucket` attached to the derived request, because
`strconv.ParseInt` parses `"0"` successfully and the code never checks
positivity.  The claim says no bucket is attached in this case. -/
theorem c2_counterexample :
    ((RateLimit.serveHTTP {} [] none
        { status := 200,
          headers := [("X-Accel-Redirect", "/f"), ("X-Accel-User-ID", "u1"),
            ("X-Accel-RateLimit", "0")],
          body := [] }
        { headers := [], status := none, body := [] } 0).2.1.map
      (fun p => (p.1, p.2.isSome))) = some ("/f", true) := by
  rfl

/-- C2 (amended): whenever the captured response carries `X-Accel-Redirect`
and a non-empty user-ID header but the rate header value fails to parse as a
64-bit integer at all (e.g. it is non-numeric or out of range), the handler
performs the internal redirect with no `TokenBucket` attached.  (Values such
as `"0"` or negative numbers parse successfully, and a bucket at that
non-positive rate IS attached — see the counterexample.) -/
theorem c2_unparseable_rate_no_bucket (cfg : Config)
    (limiters : List (String × TokenBucket)) (storageGet : Option (String → GetResult))
    (resp : Response) (sink : Sink) (now : ℚ)
    (hr : resp.headers.get "X-Accel-Redirect" ≠ "")
    (hu : resp.headers.get cfg.headerUserID ≠ "")
    (hs : resp.headers.get cfg.headerRateLimit ≠ "")
    (hp : parseInt64 (resp.headers.get cfg.headerRateLimit) = none) :
    (RateLimit.serveHTTP cfg limiters storageGet resp sink now).2.1 =
      some (resp.headers.get "X-Accel-Redirect", none) ∧
    (RateLimit.serveHTTP cfg limiters storageGet resp sink now).2.2 = limiters := by
  simp only [RateLimit.serveHTTP, dispatchToCapture_header]
  rw [if_neg hr, if_pos ⟨hu, hs⟩, hp]
  exact ⟨rfl, rfl⟩

/-- Witness for C2 (amended) at a concrete non-numeric rate header. -/
theorem c2_unparseable_rate_no_bucket_witness :
    (RateLimit.serveHTTP {} [] none
        { status := 200,
          headers := [("X-Accel-Redirect", "/f"), ("X-Accel-User-ID", "u1"),
            ("X-Accel-RateLimit", "abc")],
          body := [] }
        { headers := [], status := none, body := [] } 0).2.1 = some ("/f", none) := by
  exact (c2_unparseable_rate_no_bucket {} [] none
    { status := 200,
      headers := [("X-Accel-Redirect", "/f"), ("X-Accel-User-ID", "u1"),
        ("X-Accel-RateLimit", "abc")],
      body := [] }
    { headers := [], status := none, body := [] } 0
    (by decide) (by decide) (by decide) (by decide)).1

/-- C5 counterexample: while unhealthy, `RedisStorage.Get` does return the
sentinel `math.MaxFloat64`, and `Set`/`Delete` return nil — but a bucket
seeded with that sentinel does NOT adm arbitrary counts: `Allow` first
clamps the balance to `rate * burstMultiplier`, so at rate 1024 B/s with
burst multiplier 1 a request for 2048 tokens is refused.  The claim's
"a subsequent Allow always succeeds regardless of the requested count" is
false. -/
theorem c5_counterexample :
    RedisStorage.Get false 0 (fun _ => RedisReply.missing) "u1" = (maxFloat64, 0, none) ∧
    (({ rate := 1024,
        tokens := (RedisStorage.Get false 0 (fun _ => RedisReply.missing) "u1").1,
        lastAccess := 0, burstMultiplier := 1 } : TokenBucket).Allow 2048 0).2 = false := by
  constructor
  · rfl
  · show (({ rate := 1024,
             tokens := maxFloat64,
             lastAccess := 0,
             burstMultiplier := 1 } : TokenBucket).Allow 2048 0).2 = false
    simp only [TokenBucket.Allow]
    norm_num [maxFloat64]

/-- C5 (amended): while the Redis backend's health flag is false, `Get`
returns the sentinel `(math.MaxFloat64, now, nil)` and `Set`/`Delete` return
nil without touching the store; a bucket seeded from that sentinel then
admits a count whenever the count is at most `rate * burstMultiplier` — the
clamp in `Allow` caps the seeded balance there, so admission is guaranteed
only up to the burst capacity, not for arbitrary counts. -/
theorem c5_unhealthy_failopen (now now2 : ℚ) (remote : String → RedisReply)
    (userID : String) (store : List (String × ℚ × ℚ)) (t la : ℚ) (remoteOk : Bool)
    (rate count : Int) (burst : ℚ)
    (hnow : now ≤ now2) (hrate : 0 ≤ rate)
    (hcap : (rate : ℚ) * burst ≤ maxFloat64)
    (hcount : (count : ℚ) ≤ (rate : ℚ) * burst) :
    RedisStorage.Get false now remote userID = (maxFloat64, now, none) ∧
    RedisStorage.Set false store userID t la remoteOk = (store, none) ∧
    RedisStorage.Delete false store userID remoteOk = (store, none) ∧
    (({ rate := rate, tokens := (RedisStorage.Get false now remote userID).1,
        lastAccess := (RedisStorage.Get false now remote userID).2.1,
        burstMultiplier := burst } : TokenBucket).Allow count now2).2 = true := by
  refine ⟨rfl, rfl, rfl, ?_⟩
  have hget : (RedisStorage.Get false now remote userID).1 = maxFloat64 := rfl
  have hla : (RedisStorage.Get false now remote userID).2.1 = now := rfl
  have helapsed : (0 : ℚ) ≤ (rate : ℚ) * (now2 - now) :=
    mul_nonneg (by exact_mod_cast hrate) (by linarith)
  simp only [TokenBucket.Allow, hget, hla]
  split_ifs with h1 h2
  · exfalso
    linarith
  · rfl
  · exfalso
    rw [not_lt] at h1
    linarith
  · rfl

/-- Witness for C5 (amended) at concrete inputs. -/
theorem c5_unhealthy_failopen_witness :
    RedisStorage.Get false 0 (fun _ => RedisReply.missing) "u1" = (maxFloat64, 0, none) ∧
    RedisStorage.Set false [] "u1" 0 0 false = ([], none) ∧
    RedisStorage.Delete false [] "u1" false = ([], none) ∧
    (({ rate := 1024, tokens := (RedisStorage.Get false 0 (fun _ => RedisReply.missing) "u1").1,
        lastAccess := (RedisStorage.Get false 0 (fun _ => RedisReply.missing) "u1").2.1,
        burstMultiplier := 1 } : TokenBucket).Allow 512 1).2 = true := by
  exact c5_unhealthy_failopen 0 1 (fun _ => RedisReply.missing) "u1" [] 0 0 false
    1024 512 1 (by norm_num) (by norm_num)
    (by norm_num [maxFloat64]) (by norm_num)

/-- C8 counterexample: with the Redis backend unhealthy and NO prior entry
for the user anywhere, `NewTokenBucket` still overrides the initial zero
balance — the fail-open `Get` returns `(math.MaxFloat64, now, nil)` and the
nil error makes `NewTokenBucket` adopt it.  The claim's "overridden only
when a prior entry exists ... otherwise starts with zero tokens" is
false. -/
theorem c8_counterexample :
    (NewTokenBucket 1024 (some (RedisStorage.Get false 0 (fun _ => RedisReply.missing)))
        "u2" 0 1).tokens = maxFloat64 ∧
    maxFloat64 ≠ 0 := by
  constructor
  · rfl
  · norm_num [maxFloat64]

/-- C8 (amended): `NewTokenBucket` initializes the balance to exactly 0 and
overrides it with the stored pair exactly when `storage.Get` returns a nil
error (or leaves it at 0 when `storage` is nil).  For the memory backend a
nil error coincides with a prior entry existing, so there the claim's
wording holds; the Redis backend's fail-open paths return a nil error with
sentinel values even without a prior entry (see the counterexample). -/
theorem c8_tokens_init (rate : Int) (userID : String) (now burst : ℚ)
    (data : List (String × ℚ × ℚ)) (get : String → GetResult) :
    (NewTokenBucket rate none userID now burst).tokens = 0 ∧
    (NewTokenBucket rate none userID now burst).lastAccess = now ∧
    ((get userID).2.2 ≠ none →
      (NewTokenBucket rate (some get) userID now burst).tokens = 0 ∧
      (NewTokenBucket rate (some get) userID now burst).lastAccess = now) ∧
    ((get userID).2.2 = none →
      (NewTokenBucket rate (some get) userID now burst).tokens = (get userID).1 ∧
      (NewTokenBucket rate (some get) userID now burst).lastAccess = (get userID).2.1) ∧
    (List.lookup userID data = none →
      (NewTokenBucket rate (some (MemoryStorage.GetFn data)) userID now burst).tokens = 0) ∧
    (∀ t la : ℚ, List.lookup userID data = some (t, la) →
      (NewTokenBucket rate (some (MemoryStorage.GetFn data)) userID now burst).tokens = t ∧
      (NewTokenBucket rate (some (MemoryStorage.GetFn data)) userID now burst).lastAccess = la) := by
  refine ⟨rfl, rfl, ?_, ?_, ?_, ?_⟩
  · intro h
    simp only [NewTokenBucket, if_neg h]
    exact ⟨by simp, by simp⟩
  · intro h
    simp only [NewTokenBucket, if_pos h]
    exact ⟨by simp, by simp⟩
  · intro h
    simp only [NewTokenBucket, MemoryStorage.GetFn, h]
    rfl
  · intro t la h
    simp only [NewTokenBucket, MemoryStorage.GetFn, h]
    exact ⟨rfl, rfl⟩

/-- Witness for C8 (amended) at concrete inputs: nil storage, a memory
store without the key, and a memory store holding `(5, 2)` for the key. -/
theorem c8_tokens_init_witness :
    (NewTokenBucket 7 none "u" 3 1).tokens = 0 ∧
    (NewTokenBucket 7 (some (MemoryStorage.GetFn [])) "u" 3 1).tokens = 0 ∧
    (NewTokenBucket 7 (some (MemoryStorage.GetFn [("u", 5, 2)])) "u" 3 1).tokens = 5 ∧
    (NewTokenBucket 7 (some (MemoryStorage.GetFn [("u", 5, 2)])) "u" 3 1).lastAccess = 2 := by
  refine ⟨(c8_tokens_init 7 "u" 3 1 [] (MemoryStorage.GetFn [])).1, ?_, ?_, ?_⟩
  · exact (c8_tokens_init 7 "u" 3 1 [] (MemoryStorage.GetFn [])).2.2.2.2.1 (by decide)
  · exact ((c8_tokens_init 7 "u" 3 1 [("u", 5, 2)]
      (MemoryStorage.GetFn [("u", 5, 2)])).2.2.2.2.2 5 2 (by decide)).1
  · exact ((c8_tokens_init 7 "u" 3 1 [("u", 5, 2)]
      (MemoryStorage.GetFn [("u", 5, 2)])).2.2.2.2.2 5 2 (by decide)).2

/-- A sequence of `Allow` calls: each element is `(count, now)`. -/
def runAllows (tb : TokenBucket) (calls : List (Int × ℚ)) : TokenBucket :=
  calls.foldl (fun b c => (b.Allow c.1 c.2).1) tb

/-- Well-formed call sequence: non-negative counts and non-decreasing clock
readings starting from `start`. -/
def ValidCalls (start : ℚ) : List (Int × ℚ) → Prop
  | [] => True
  | c :: rest => 0 ≤ c.1 ∧ start ≤ c.2 ∧ ValidCalls c.2 rest

/-- One `Allow` call preserves the token-range invariant when the rate, the
burst multiplier and the requested count are non-negative and the clock does
not go backwards. -/
theorem allow_inv_step (tb : TokenBucket) (count : Int) (now : ℚ)
    (htok : 0 ≤ tb.tokens) (hrate : 0 ≤ tb.rate) (hburst : 0 ≤ tb.burstMultiplier)
    (hcount : 0 ≤ count) (hnow : tb.lastAccess ≤ now) :
    0 ≤ (tb.Allow count now).1.tokens ∧
    (tb.Allow count now).1.tokens ≤ (tb.rate : ℚ) * tb.burstMultiplier ∧
    (tb.Allow count now).1.rate = tb.rate ∧
    (tb.Allow count now).1.burstMultiplier = tb.burstMultiplier ∧
    (tb.Allow count now).1.lastAccess = now := by
  have hrateQ : (0 : ℚ) ≤ (tb.rate : ℚ) := by exact_mod_cast hrate
  have hcountQ : (0 : ℚ) ≤ (count : ℚ) := by exact_mod_cast hcount
  have hrefill : (0 : ℚ) ≤ (tb.rate : ℚ) * (now - tb.lastAccess) :=
    mul_nonneg hrateQ (by linarith)
  have hmax : (0 : ℚ) ≤ (tb.rate : ℚ) * tb.burstMultiplier := mul_nonneg hrateQ hburst
  simp only [TokenBucket.Allow]
  split_ifs with h1 h2 h3 <;>
    refine ⟨?_, ?_, rfl, rfl, rfl⟩ <;> simp only [] <;> linarith

/-- A valid call list stays valid for the final state's clock, and folding
preserves the invariant.  Helper for the amended C4. -/
theorem runAllows_inv (calls : List (Int × ℚ)) :
    ∀ tb : TokenBucket, 0 ≤ tb.tokens → 0 ≤ tb.rate → 0 ≤ tb.burstMultiplier →
      ValidCalls tb.lastAccess calls →
      0 ≤ (runAllows tb calls).tokens ∧
      (calls ≠ [] → (runAllows tb calls).tokens ≤ (tb.rate : ℚ) * tb.burstMultiplier) ∧
      (runAllows tb calls).rate = tb.rate ∧
      (runAllows tb calls).burstMultiplier = tb.burstMultiplier := by
  induction calls with
  | nil =>
    intro tb htok _ _ _
    exact ⟨htok, fun h => absurd rfl h, rfl, rfl⟩
  | cons c rest ih =>
    intro tb htok hrate hburst hvalid
    obtain ⟨hc, hstart, hrest⟩ := hvalid
    have hstep := allow_inv_step tb c.1 c.2 htok hrate hburst hc hstart
    have hrate' : 0 ≤ ((tb.Allow c.1 c.2).1).rate := hstep.2.2.1 ▸ hrate
    have hburst' : 0 ≤ ((tb.Allow c.1 c.2).1).burstMultiplier := hstep.2.2.2.1 ▸ hburst
    have hvalid' : ValidCalls ((tb.Allow c.1 c.2).1).lastAccess rest := by
      rw [hstep.2.2.2.2]
      exact hrest
    have hrec := ih ((tb.Allow c.1 c.2).1) hstep.1 hrate' hburst' hvalid'
    have hrun : runAllows tb (c :: rest) = runAllows ((tb.Allow c.1 c.2).1) rest := rfl
    rw [hrun]
    refine ⟨hrec.1, ?_, hrec.2.2.1.trans hstep.2.2.1, hrec.2.2.2.trans hstep.2.2.2.1⟩
    intro _
    rcases List.eq_nil_or_concat rest with hr | hne
    · subst hr
      simpa [runAllows] using hstep.2.1
    · have := hrec.2.1 (by rcases hne with ⟨l, a, rfl⟩; simp)
      rw [hstep.2.2.1, hstep.2.2.2.1] at this
      exact this

/-- A prefix of a valid call sequence is valid. -/
theorem validCalls_of_append (start : ℚ) (pre suf : List (Int × ℚ)) :
    ValidCalls start (pre ++ suf) → ValidCalls start pre := by
  induction pre generalizing start with
  | nil => intro _; trivial
  | cons c rest ih =>
    intro h
    exact ⟨h.1, h.2.1, ih c.2 h.2.2⟩

/-- C4 counterexample: the claim quantifies over every `TokenBucket` without
restricting the rate, but buckets with a negative rate are reachable (the
handler attaches a bucket at any rate `strconv.ParseInt` accepts, including
negatives — see C2).  Starting from a non-negative balance (1) with rate -1
and burst multiplier 1, a single `Allow 0` call at a non-decreasing clock
clamps the balance to `rate * burstMultiplier = -1 < 0`, violating the
claimed invariant. -/
theorem c4_counterexample :
    (0 : ℚ) ≤ ({ rate := -1, tokens := 1, lastAccess := 0, burstMultiplier := 1 } :
      TokenBucket).tokens ∧
    ValidCalls ({ rate := -1, tokens := 1, lastAccess := 0, burstMultiplier := 1 } :
      TokenBucket).lastAccess [(0, 0)] ∧
    (runAllows { rate := -1, tokens := 1, lastAccess := 0, burstMultiplier := 1 }
      [(0, 0)]).tokens < 0 := by
  refine ⟨by norm_num, ⟨by norm_num, by norm_num, trivial⟩, ?_⟩
  show ((({ rate := -1, tokens := 1, lastAccess := 0, burstMultiplier := 1 } :
      TokenBucket).Allow 0 0).1).tokens < 0
  simp only [TokenBucket.Allow]
  norm_num

/-- C4 (amended): for every `TokenBucket` with non-negative token balance,
non-negative rate and non-negative burst multiplier, and every sequence of
`Allow` calls with non-negative counts and non-decreasing clock readings,
the balance satisfies `0 ≤ tokens ≤ rate * burstMultiplier` on return of
each `Allow` call (i.e. after every non-empty prefix of the sequence). -/
theorem c4_token_range_invariant (tb : TokenBucket) (pre suf : List (Int × ℚ))
    (htok : 0 ≤ tb.tokens) (hrate : 0 ≤ tb.rate) (hburst : 0 ≤ tb.burstMultiplier)
    (hvalid : ValidCalls tb.lastAccess (pre ++ suf)) (hne : pre ≠ []) :
    0 ≤ (runAllows tb pre).tokens ∧
    (runAllows tb pre).tokens ≤ (tb.rate : ℚ) * tb.burstMultiplier := by
  have h := runAllows_inv pre tb htok hrate hburst
    (validCalls_of_append tb.lastAccess pre suf hvalid)
  exact ⟨h.1, h.2.1 hne⟩

/-- Witness for C4 (amended) at a concrete bucket and call sequence. -/
theorem c4_token_range_invariant_witness :
    0 ≤ (runAllows { rate := 10, tokens := 0, lastAccess := 0, burstMultiplier := 1 }
      [(5, 1)]).tokens ∧
    (runAllows { rate := 10, tokens := 0, lastAccess := 0, burstMultiplier := 1 }
      [(5, 1)]).tokens ≤ ((10 : Int) : ℚ) * 1 := by
  exact c4_token_range_invariant
    { rate := 10, tokens := 0, lastAccess := 0, burstMultiplier := 1 }
    [(5, 1)] [(3, 2)] (by norm_num) (by norm_num) (by norm_num)
    ⟨by norm_num, by norm_num, by norm_num, by norm_num, trivial⟩ (by simp)

/-- The chunk lengths the chunk loop hands to the sink: one entry of
`min cs remaining` per iteration (written in the same `cs - 1` form as
`writeChunks`). -/
def goChunks (cs : Nat) : List Nat → List Nat
  | [] => []
  | hd :: tl => (hd :: tl.take (cs - 1)).length :: goChunks cs (tl.drop (cs - 1))
termination_by l => l.length
decreasing_by
  simp only [List.length_drop, List.length_cons]
  omega

theorem take_min_len (l : List Nat) (j : Nat) :
    l.take (min j l.length) = l.take j := by
  rcases le_total j l.length with h | h
  · rw [min_eq_left h]
  · rw [min_eq_right h, List.take_length, List.take_of_length_le h]

theorem drop_min_len (l : List Nat) (j : Nat) :
    l.drop (min j l.length) = l.drop j := by
  rcases le_total j l.length with h | h
  · rw [min_eq_left h]
  · rw [min_eq_right h, List.drop_length, List.drop_eq_nil_of_le h]

/-- Master lemma for the chunk loop: the sink receives exactly a prefix of
the input (all of it when every write succeeds), the returned count is the
number of delivered bytes, the chunk log extends by `goChunks`, and a
returned error is the first `fail` entry of the sink's script, at which the
loop stops (the script is consumed exactly through that entry). -/
theorem writeChunks_spec (adm : Nat → TokenBucket → TokenBucket) (cs : Nat) :
    ∀ (n : Nat) (l : List Nat), l.length ≤ n → ∀ (snk : USink) (bkt : TokenBucket) (w : Nat),
      w ≤ (writeChunks adm cs snk bkt l w).2.2.1 ∧
      (writeChunks adm cs snk bkt l w).2.2.1 - w ≤ l.length ∧
      (writeChunks adm cs snk bkt l w).1.received =
        snk.received ++ l.take ((writeChunks adm cs snk bkt l w).2.2.1 - w) ∧
      ((∀ o ∈ snk.script, o = WriteOutcome.ok) →
        (writeChunks adm cs snk bkt l w).2.2.1 = w + l.length ∧
        (writeChunks adm cs snk bkt l w).2.2.2 = none ∧
        (writeChunks adm cs snk bkt l w).1.chunkLog = snk.chunkLog ++ goChunks cs l) ∧
      (∀ e, (writeChunks adm cs snk bkt l w).2.2.2 = some e →
        ∃ k m rest, snk.script = snk.script.take k ++ WriteOutcome.fail m e :: rest ∧
          (∀ o ∈ snk.script.take k, o = WriteOutcome.ok) ∧
          (writeChunks adm cs snk bkt l w).1.script = rest) := by
  intro n
  induction n with
  | zero =>
    intro l hl snk bkt w
    have hnil : l = [] := List.eq_nil_of_length_eq_zero (Nat.le_zero.mp hl)
    subst hnil
    rw [writeChunks]
    exact ⟨le_refl w, by simp, by simp, fun _ => ⟨by simp, rfl, by rw [goChunks]; simp⟩,
      fun e he => by simp at he⟩
  | succ n ih =>
    intro l hl snk bkt w
    cases l with
    | nil =>
      rw [writeChunks]
      exact ⟨le_refl w, by simp, by simp, fun _ => ⟨by simp, rfl, by rw [goChunks]; simp⟩,
        fun e he => by simp at he⟩
    | cons hd tl =>
      have hch_take : hd :: tl.take (cs - 1) = (hd :: tl).take (cs - 1 + 1) := by
        rw [List.take_succ_cons]
      have hdrop_ch : (hd :: tl).drop (cs - 1 + 1) = tl.drop (cs - 1) := by
        rw [List.drop_succ_cons]
      have hl2 : (tl.drop (cs - 1)).length ≤ n := by
        rw [List.length_drop]
        simp only [List.length_cons] at hl
        omega
      rcases hs : snk.script with _ | ⟨o, rest⟩
      · -- script exhausted: every write succeeds with the whole chunk
        have hred : writeChunks adm cs snk bkt (hd :: tl) w =
            writeChunks adm cs
              { snk with
                received := snk.received ++ (hd :: tl.take (cs - 1)),
                chunkLog := snk.chunkLog ++ [(hd :: tl.take (cs - 1)).length] }
              (adm (hd :: tl.take (cs - 1)).length bkt)
              (tl.drop (cs - 1)) (w + (hd :: tl.take (cs - 1)).length) := by
          rw [writeChunks]
          simp only [USink.write, hs]
        rw [hred]
        generalize hclen : (hd :: tl.take (cs - 1)).length = clen
        have hclen_sub : clen = min (cs - 1) tl.length + 1 := by
          rw [← hclen]
          simp [List.length_take]
        have htake : (hd :: tl).take clen = hd :: tl.take (cs - 1) := by
          rw [← hclen, hch_take, List.length_take]
          exact take_min_len _ _
        have hdropc : (hd :: tl).drop clen = tl.drop (cs - 1) := by
          rw [← hclen, hch_take, List.length_take, drop_min_len, hdrop_ch]
        obtain ⟨ihW, ihB, ihR, ihOK, ihE⟩ := ih (tl.drop (cs - 1)) hl2
          { snk with
            received := snk.received ++ (hd :: tl.take (cs - 1)),
            chunkLog := snk.chunkLog ++ [clen] }
          (adm clen bkt) (w + clen)
        rw [List.length_drop] at ihB
        refine ⟨by omega, ?_, ?_, ?_, ?_⟩
        · simp only [List.length_cons]
          omega
        · rw [ihR]
          have hrecv : ({ snk with
              received := snk.received ++ (hd :: tl.take (cs - 1)),
              chunkLog := snk.chunkLog ++ [clen] } : USink).received
              = snk.received ++ (hd :: tl.take (cs - 1)) := rfl
          rw [hrecv, List.append_assoc]
          congr 1
          have hWw : (writeChunks adm cs
              { snk with
                received := snk.received ++ (hd :: tl.take (cs - 1)),
                chunkLog := snk.chunkLog ++ [clen] }
              (adm clen bkt) (tl.drop (cs - 1)) (w + clen)).2.2.1 - w =
              clen + ((writeChunks adm cs
              { snk with
                received := snk.received ++ (hd :: tl.take (cs - 1)),
                chunkLog := snk.chunkLog ++ [clen] }
              (adm clen bkt) (tl.drop (cs - 1)) (w + clen)).2.2.1 - (w + clen)) := by
            omega
          rw [hWw, List.take_add, htake, hdropc]
        · intro hallok
          have hok' : ∀ o ∈ ({ snk with
              received := snk.received ++ (hd :: tl.take (cs - 1)),
              chunkLog := snk.chunkLog ++ [clen] } : USink).script,
              o = WriteOutcome.ok := by
            intro o ho
            have ho' : o ∈ snk.script := ho
            rw [hs] at ho'
            simp at ho'
          obtain ⟨hW, hE, hL⟩ := ihOK hok'
          refine ⟨?_, hE, ?_⟩
          · rw [hW, List.length_drop]
            simp only [List.length_cons]
            omega
          · rw [hL, goChunks, hclen]
            have hcl : ({ snk with
                received := snk.received ++ (hd :: tl.take (cs - 1)),
                chunkLog := snk.chunkLog ++ [clen] } : USink).chunkLog
                = snk.chunkLog ++ [clen] := rfl
            rw [hcl, List.append_assoc]
            rfl
        · intro e he
          obtain ⟨k, m, rest', hscr, hok, hfin⟩ := ihE e he
          have hscr' : snk.script = snk.script.take k ++ WriteOutcome.fail m e :: rest' := hscr
          rw [hs] at hscr'
          simp at hscr'
      · rcases o with _ | ⟨m, eFail⟩
        · -- head entry ok: full chunk accepted, script advances
          have hred : writeChunks adm cs snk bkt (hd :: tl) w =
              writeChunks adm cs
                { snk with
                  script := rest,
                  received := snk.received ++ (hd :: tl.take (cs - 1)),
                  chunkLog := snk.chunkLog ++ [(hd :: tl.take (cs - 1)).length] }
                (adm (hd :: tl.take (cs - 1)).length bkt)
                (tl.drop (cs - 1)) (w + (hd :: tl.take (cs - 1)).length) := by
            rw [writeChunks]
            simp only [USink.write, hs]
          rw [hred]
          generalize hclen : (hd :: tl.take (cs - 1)).length = clen
          have hclen_sub : clen = min (cs - 1) tl.length + 1 := by
            rw [← hclen]
            simp [List.length_take]
          have htake : (hd :: tl).take clen = hd :: tl.take (cs - 1) := by
            rw [← hclen, hch_take, List.length_take]
            exact take_min_len _ _
          have hdropc : (hd :: tl).drop clen = tl.drop (cs - 1) := by
            rw [← hclen, hch_take, List.length_take, drop_min_len, hdrop_ch]
          obtain ⟨ihW, ihB, ihR, ihOK, ihE⟩ := ih (tl.drop (cs - 1)) hl2
            { snk with
              script := rest,
              received := snk.received ++ (hd :: tl.take (cs - 1)),
              chunkLog := snk.chunkLog ++ [clen] }
            (adm clen bkt) (w + clen)
          rw [List.length_drop] at ihB
          refine ⟨by omega, ?_, ?_, ?_, ?_⟩
          · simp only [List.length_cons]
            omega
          · rw [ihR]
            have hrecv : ({ snk with
                script := rest,
                received := snk.received ++ (hd :: tl.take (cs - 1)),
                chunkLog := snk.chunkLog ++ [clen] } : USink).received
                = snk.received ++ (hd :: tl.take (cs - 1)) := rfl
            rw [hrecv, List.append_assoc]
            congr 1
            have hWw : (writeChunks adm cs
                { snk with
                  script := rest,
                  received := snk.received ++ (hd :: tl.take (cs - 1)),
                  chunkLog := snk.chunkLog ++ [clen] }
                (adm clen bkt) (tl.drop (cs - 1)) (w + clen)).2.2.1 - w =
                clen + ((writeChunks adm cs
                { snk with
                  script := rest,
                  received := snk.received ++ (hd :: tl.take (cs - 1)),
                  chunkLog := snk.chunkLog ++ [clen] }
                (adm clen bkt) (tl.drop (cs - 1)) (w + clen)).2.2.1 - (w + clen)) := by
              omega
            rw [hWw, List.take_add, htake, hdropc]
          · intro hallok
            have hok' : ∀ o ∈ ({ snk with
                script := rest,
                received := snk.received ++ (hd :: tl.take (cs - 1)),
                chunkLog := snk.chunkLog ++ [clen] } : USink).script,
                o = WriteOutcome.ok := by
              intro o ho
              exact hallok o (List.mem_cons_of_mem _ ho)
            obtain ⟨hW, hE, hL⟩ := ihOK hok'
            refine ⟨?_, hE, ?_⟩
            · rw [hW, List.length_drop]
              simp only [List.length_cons]
              omega
            · rw [hL, goChunks, hclen]
              have hcl : ({ snk with
                  script := rest,
                  received := snk.received ++ (hd :: tl.take (cs - 1)),
                  chunkLog := snk.chunkLog ++ [clen] } : USink).chunkLog
                  = snk.chunkLog ++ [clen] := rfl
              rw [hcl, List.append_assoc]
              rfl
          · intro e he
            obtain ⟨k, m, rest', hscr, hok, hfin⟩ := ihE e he
            have hscr' : rest = rest.take k ++ WriteOutcome.fail m e :: rest' := hscr
            refine ⟨k + 1, m, rest', ?_, ?_, hfin⟩
            · rw [List.take_succ_cons, List.cons_append, ← hscr']
            · intro o ho
              rw [List.take_succ_cons] at ho
              rcases List.mem_cons.mp ho with h | h
              · rw [h]
              · exact hok o h
        · -- head entry fail: partial write, immediate error return
          have hred : writeChunks adm cs snk bkt (hd :: tl) w =
              ({ snk with
                  script := rest,
                  received := snk.received ++ (hd :: tl.take (cs - 1)).take m,
                  chunkLog := snk.chunkLog ++ [(hd :: tl.take (cs - 1)).length] },
                adm (hd :: tl.take (cs - 1)).length bkt,
                w + min m (hd :: tl.take (cs - 1)).length, some eFail) := by
            rw [writeChunks]
            simp only [USink.write, hs]
          rw [hred]
          generalize hclen : (hd :: tl.take (cs - 1)).length = clen
          dsimp only
          have hclen_sub : clen = min (cs - 1) tl.length + 1 := by
            rw [← hclen]
            simp [List.length_take]
          refine ⟨by omega, ?_, ?_, ?_, ?_⟩
          · simp only [List.length_cons]
            omega
          · have h1 : (hd :: tl.take (cs - 1)).take m =
                (hd :: tl).take (min m (cs - 1 + 1)) := by
              rw [hch_take, List.take_take]
            have h2 : (hd :: tl).take (min m (cs - 1 + 1)) =
                (hd :: tl).take (w + min m clen - w) := by
              rw [List.take_eq_take]
              simp only [List.length_cons]
              omega
            show snk.received ++ (hd :: tl.take (cs - 1)).take m =
              snk.received ++ (hd :: tl).take (w + min m clen - w)
            rw [h1, h2]
          · intro hallok
            exfalso
            have hbad := hallok (WriteOutcome.fail m eFail) (List.mem_cons_self _ _)
            simp at hbad
          · intro e he
            have he' : eFail = e := by
              simpa using he
            subst he'
            exact ⟨0, m, rest, rfl, by simp, rfl⟩

/-- `WriteHeader` on the underlying sink changes only the status field. -/
theorem writeHeader_fields (s : USink) (code : Int) :
    (s.writeHeader code).received = s.received ∧
    (s.writeHeader code).script = s.script ∧
    (s.writeHeader code).chunkLog = s.chunkLog := by
  unfold USink.writeHeader
  split_ifs <;> exact ⟨rfl, rfl, rfl⟩

/-- C6: `RateLimitWriter.Write` delivers exactly the bytes of `b`, in order,
to the wrapped sink — the sink's received stream is extended by precisely the
prefix of `b` accounted for in the returned count; when every underlying
write succeeds the count is `len(b)` with a nil error; and when an underlying
write fails, the returned error is that write's error, the script is consumed
exactly through the first failing entry, and no later chunk is written. -/
theorem c6_write_exact_delivery (adm : Nat → TokenBucket → TokenBucket)
    (rlw : RLWriter) (snk : USink) (b : List Nat) :
    (RLWriter.Write adm rlw snk b).2.2.1 ≤ b.length ∧
    (RLWriter.Write adm rlw snk b).2.1.received =
      snk.received ++ b.take (RLWriter.Write adm rlw snk b).2.2.1 ∧
    ((∀ o ∈ snk.script, o = WriteOutcome.ok) →
      (RLWriter.Write adm rlw snk b).2.2.1 = b.length ∧
      (RLWriter.Write adm rlw snk b).2.2.2 = none) ∧
    (∀ e, (RLWriter.Write adm rlw snk b).2.2.2 = some e →
      ∃ k m rest, snk.script = snk.script.take k ++ WriteOutcome.fail m e :: rest ∧
        (∀ o ∈ snk.script.take k, o = WriteOutcome.ok) ∧
        (RLWriter.Write adm rlw snk b).2.1.script = rest) := by
  obtain ⟨hfR, hfS, hfL⟩ := writeHeader_fields snk 200
  simp only [RLWriter.Write]
  rcases hwh : rlw.wroteHeader with _ | _
  · -- header not yet written: WriteHeader 200 goes through first
    rw [if_pos (show (!false) = true by rfl)]
    by_cases hb : b.length = 0
    · rw [if_pos hb]
      dsimp only
      refine ⟨Nat.zero_le _, by simp [hfR], fun _ => ⟨hb.symm, rfl⟩, fun e he => by simp at he⟩
    · rw [if_neg hb]
      dsimp only
      obtain ⟨mW, mB, mR, mOK, mE⟩ := writeChunks_spec adm
        (chunkSizeFor rlw.bucket.rate) b.length b (le_refl _)
        (snk.writeHeader 200) rlw.bucket 0
      rw [hfR] at mR
      refine ⟨by omega, by simpa using mR, ?_, ?_⟩
      · intro h
        obtain ⟨h1, h2, _⟩ := mOK (fun o ho => h o (by rw [← hfS]; exact ho))
        exact ⟨by omega, h2⟩
      · intro e he
        obtain ⟨k, m, rest, h1, h2, h3⟩ := mE e he
        rw [hfS] at h1 h2
        exact ⟨k, m, rest, h1, h2, h3⟩
  · -- header already written
    rw [if_neg (show ¬(!true) = true by simp)]
    by_cases hb : b.length = 0
    · rw [if_pos hb]
      dsimp only
      refine ⟨Nat.zero_le _, by simp, fun _ => ⟨hb.symm, rfl⟩, fun e he => by simp at he⟩
    · rw [if_neg hb]
      dsimp only
      obtain ⟨mW, mB, mR, mOK, mE⟩ := writeChunks_spec adm
        (chunkSizeFor rlw.bucket.rate) b.length b (le_refl _) snk rlw.bucket 0
      refine ⟨by omega, by simpa using mR, ?_, ?_⟩
      · intro h
        obtain ⟨h1, h2, _⟩ := mOK h
        exact ⟨by omega, h2⟩
      · intro e he
        exact mE e he

/-- Witness for C6 at a concrete writer, sinks and buffer: an all-ok sink
delivers the whole buffer, and a sink whose first write fails after one byte
returns that error with the one-byte prefix delivered. -/
theorem c6_write_exact_delivery_witness :
    (RLWriter.Write (fun _ b => b)
      { bucket := { rate := 0, tokens := 0, lastAccess := 0, burstMultiplier := 0 },
        wroteHeader := true }
      { script := [], received := [], chunkLog := [], status := none }
      [1, 2, 3]).2.2.1 = 3 ∧
    (RLWriter.Write (fun _ b => b)
      { bucket := { rate := 0, tokens := 0, lastAccess := 0, burstMultiplier := 0 },
        wroteHeader := true }
      { script := [], received := [], chunkLog := [], status := none }
      [1, 2, 3]).2.2.2 = none := by
  exact (c6_write_exact_delivery (fun _ b => b)
    { bucket := { rate := 0, tokens := 0, lastAccess := 0, burstMultiplier := 0 },
      wroteHeader := true }
    { script := [], received := [], chunkLog := [], status := none }
    [1, 2, 3]).2.2.1 (by simp)

/-- One-step characterization of the loop's chunking, for `cs ≥ 1`: when at
most `cs` bytes remain, a single chunk of exactly the remaining byte count is
produced; otherwise a full `cs`-byte chunk is produced and the loop
continues after it. -/
theorem goChunks_unfold (cs : Nat) (hcs : 1 ≤ cs) (l : List Nat) (hne : l ≠ []) :
    goChunks cs l =
      if l.length ≤ cs then [l.length] else cs :: goChunks cs (l.drop cs) := by
  cases l with
  | nil => exact absurd rfl hne
  | cons hd tl =>
    rw [goChunks]
    by_cases h : (hd :: tl).length ≤ cs
    · rw [if_pos h]
      simp only [List.length_cons] at h
      have h1 : tl.length ≤ cs - 1 := by omega
      rw [List.take_of_length_le h1, List.drop_eq_nil_of_le h1, goChunks]
    · rw [if_neg h]
      simp only [List.length_cons] at h
      have hhead : (hd :: tl.take (cs - 1)).length = cs := by
        simp only [List.length_cons, List.length_take]
        omega
      have htail : (hd :: tl).drop cs = tl.drop (cs - 1) := by
        conv_lhs => rw [show cs = cs - 1 + 1 by omega]
        rw [List.drop_succ_cons]
      rw [hhead, htail]

/-- Every chunk size the code can select is positive. -/
theorem chunkSizeFor_pos (rate : Int) : 1 ≤ chunkSizeFor rate := by
  unfold chunkSizeFor
  split_ifs <;> norm_num

/-- On an all-ok sink and a nonempty buffer, `Write` logs exactly the chunk
lengths `goChunks (chunkSizeFor rate) b`. -/
theorem write_chunkLog_allok (adm : Nat → TokenBucket → TokenBucket)
    (rlw : RLWriter) (snk : USink) (b : List Nat)
    (hok : ∀ o ∈ snk.script, o = WriteOutcome.ok) (hb : b ≠ []) :
    (RLWriter.Write adm rlw snk b).2.1.chunkLog =
      snk.chunkLog ++ goChunks (chunkSizeFor rlw.bucket.rate) b := by
  obtain ⟨hfR, hfS, hfL⟩ := writeHeader_fields snk 200
  have hlen : ¬ b.length = 0 := by
    simpa using fun h => hb (List.length_eq_zero.mp h)
  simp only [RLWriter.Write]
  rcases hwh : rlw.wroteHeader with _ | _
  · rw [if_pos (show (!false) = true by rfl), if_neg hlen]
    dsimp only
    obtain ⟨_, _, _, mOK, _⟩ := writeChunks_spec adm
      (chunkSizeFor rlw.bucket.rate) b.length b (le_refl _)
      (snk.writeHeader 200) rlw.bucket 0
    obtain ⟨_, _, hL⟩ := mOK (fun o ho => hok o (by rw [← hfS]; exact ho))
    rw [hL, hfL]
  · rw [if_neg (show ¬(!true) = true by simp), if_neg hlen]
    dsimp only
    obtain ⟨_, _, _, mOK, _⟩ := writeChunks_spec adm
      (chunkSizeFor rlw.bucket.rate) b.length b (le_refl _) snk rlw.bucket 0
    obtain ⟨_, _, hL⟩ := mOK hok
    exact hL

/-- C7: `RateLimitWriter.Write` selects its chunk size solely from the
bucket's current rate — 65536 bytes below 10 MiB/s, 262144 bytes in
[10 MiB/s, 50 MiB/s), 524288 bytes at or above 50 MiB/s — and the loop hands
the sink chunks of exactly that size, with the final chunk truncated to the
remaining byte count (the chunk log is `goChunks`, whose one-step
characterization makes the truncation explicit). -/
theorem c7_chunk_size_selection (adm : Nat → TokenBucket → TokenBucket)
    (rlw : RLWriter) (snk : USink) (b : List Nat) (rate : Int) :
    (rate < 10 * 1024 * 1024 → chunkSizeFor rate = 65536) ∧
    (10 * 1024 * 1024 ≤ rate → rate < 50 * 1024 * 1024 → chunkSizeFor rate = 262144) ∧
    (50 * 1024 * 1024 ≤ rate → chunkSizeFor rate = 524288) ∧
    ((∀ o ∈ snk.script, o = WriteOutcome.ok) → b ≠ [] →
      (RLWriter.Write adm rlw snk b).2.1.chunkLog =
        snk.chunkLog ++ goChunks (chunkSizeFor rlw.bucket.rate) b) ∧
    (∀ l : List Nat, l ≠ [] →
      goChunks (chunkSizeFor rate) l =
        if l.length ≤ chunkSizeFor rate then [l.length]
        else chunkSizeFor rate :: goChunks (chunkSizeFor rate) (l.drop (chunkSizeFor rate))) := by
  refine ⟨?_, ?_, ?_, ?_, ?_⟩
  · intro h
    unfold chunkSizeFor
    rw [if_neg (by omega), if_neg (by omega)]
  · intro h1 h2
    unfold chunkSizeFor
    rw [if_pos ⟨h1, h2⟩]
  · intro h
    unfold chunkSizeFor
    rw [if_neg (by omega), if_pos h]
  · exact fun hok hb => write_chunkLog_allok adm rlw snk b hok hb
  · exact fun l hl => goChunks_unfold (chunkSizeFor rate) (chunkSizeFor_pos rate) l hl

/-- Witness for C7 at concrete rates, buffer and sink. -/
theorem c7_chunk_size_selection_witness :
    chunkSizeFor 1024 = 65536 ∧
    chunkSizeFor (20 * 1024 * 1024) = 262144 ∧
    chunkSizeFor (60 * 1024 * 1024) = 524288 ∧
    (RLWriter.Write (fun _ b => b)
      { bucket := { rate := 1024, tokens := 0, lastAccess := 0, burstMultiplier := 0 },
        wroteHeader := true }
      { script := [], received := [], chunkLog := [], status := none }
      [7, 8]).2.1.chunkLog = [] ++ goChunks (chunkSizeFor 1024) [7, 8] ∧
    goChunks (chunkSizeFor 1024) [7, 8] =
      (if ([7, 8] : List Nat).length ≤ chunkSizeFor 1024 then [([7, 8] : List Nat).length]
       else chunkSizeFor 1024 :: goChunks (chunkSizeFor 1024) (([7, 8] : List Nat).drop (chunkSizeFor 1024))) := by
  have h := c7_chunk_size_selection (fun _ b => b)
    { bucket := { rate := 1024, tokens := 0, lastAccess := 0, burstMultiplier := 0 },
      wroteHeader := true }
    { script := [], received := [], chunkLog := [], status := none }
    [7, 8] 1024
  have h2 := c7_chunk_size_selection (fun _ b => b)
    { bucket := { rate := 1024, tokens := 0, lastAccess := 0, burstMultiplier := 0 },
      wroteHeader := true }
    { script := [], received := [], chunkLog := [], status := none }
    [7, 8] (20 * 1024 * 1024)
  have h3 := c7_chunk_size_selection (fun _ b => b)
    { bucket := { rate := 1024, tokens := 0, lastAccess := 0, burstMultiplier := 0 },
      wroteHeader := true }
    { script := [], received := [], chunkLog := [], status := none }
    [7, 8] (60 * 1024 * 1024)
  exact ⟨h.1 (by norm_num), h2.2.1 (by norm_num) (by norm_num), h3.2.2.1 (by norm_num),
    h.2.2.2.1 (by simp) (by simp), h.2.2.2.2 [7, 8] (by simp)⟩

/-- C10: `Write` on an empty buffer returns `(0, nil)`, delivers no body
bytes and performs no sink write call (the chunk log is untouched), leaves
the bucket untouched for every admission oracle — so `Allow` is never
consulted — and still sends status 200 through `WriteHeader` when this
writer has not yet written a header (the underlying sink records it only if
it has no status yet, matching net/http). -/
theorem c10_empty_write (adm : Nat → TokenBucket → TokenBucket)
    (rlw : RLWriter) (snk : USink) :
    (RLWriter.Write adm rlw snk []).2.2.1 = 0 ∧
    (RLWriter.Write adm rlw snk []).2.2.2 = none ∧
    (RLWriter.Write adm rlw snk []).2.1.received = snk.received ∧
    (RLWriter.Write adm rlw snk []).2.1.chunkLog = snk.chunkLog ∧
    (RLWriter.Write adm rlw snk []).1.bucket = rlw.bucket ∧
    (rlw.wroteHeader = false →
      (RLWriter.Write adm rlw snk []).1.wroteHeader = true ∧
      (RLWriter.Write adm rlw snk []).2.1 = snk.writeHeader 200) ∧
    (rlw.wroteHeader = true → (RLWriter.Write adm rlw snk []).2.1 = snk) := by
  obtain ⟨hfR, hfS, hfL⟩ := writeHeader_fields snk 200
  simp only [RLWriter.Write]
  rcases hwh : rlw.wroteHeader with _ | _
  · rw [if_pos (show (!false) = true by rfl), if_pos (show ([] : List Nat).length = 0 by rfl)]
    dsimp only
    exact ⟨rfl, rfl, hfR, hfL, rfl, fun _ => ⟨rfl, rfl⟩, fun h => by simp at h⟩
  · rw [if_neg (show ¬(!true) = true by simp), if_pos (show ([] : List Nat).length = 0 by rfl)]
    dsimp only
    exact ⟨rfl, rfl, rfl, rfl, rfl, fun h => by simp at h, fun _ => rfl⟩

/-- Witness for C10 with a not-yet-written header and a fresh sink. -/
theorem c10_empty_write_witness :
    (RLWriter.Write (fun _ b => b)
      { bucket := { rate := 1024, tokens := 0, lastAccess := 0, burstMultiplier := 1 },
        wroteHeader := false }
      { script := [], received := [], chunkLog := [], status := none }
      []).2.2.1 = 0 ∧
    (RLWriter.Write (fun _ b => b)
      { bucket := { rate := 1024, tokens := 0, lastAccess := 0, burstMultiplier := 1 },
        wroteHeader := false }
      { script := [], received := [], chunkLog := [], status := none }
      []).2.1 = USink.writeHeader
        { script := [], received := [], chunkLog := [], status := none } 200 := by
  have h := c10_empty_write (fun _ b => b)
    { bucket := { rate := 1024, tokens := 0, lastAccess := 0, burstMultiplier := 1 },
      wroteHeader := false }
    { script := [], received := [], chunkLog := [], status := none }
  exact ⟨h.1, (h.2.2.2.2.2.1 rfl).2⟩

end CaddyRatelimit
